import Mathlib

/-
  Verification of the financial calculation core of src/app.py
  (Simulador de Evaluación de Proyectos, VAN y TIR).

  The numeric core is lines 77-102 of app.py:
    line 77: edited_df["Flujo Neto ($)"] = Ingresos - Egresos       (per period)
    line 80: flujos_completo = [-inversion_inicial] + net flows
    line 83: van = npf.net_present_value(tasa_descuento / 100, flujos_completo)
    lines 87-92: try: tir = npf.irr(flujos_completo) * 100; tir_display = percent
                 rendering of tir; except: tir = None; tir_display = "No calc."
    lines 101-102: color_van / color_tir acceptability colors.

  Python float values are rational numbers, so cash-flow values are modelled
  as ℚ and the library arithmetic as exact arithmetic over ℚ (and over ℝ for
  the root set of the IRR polynomial).  IEEE NaN is modelled explicitly,
  because numpy_financial.irr signals "no solution" by RETURNING nan rather
  than by raising an exception.
-/

namespace App

/-- Model of a Python float value produced by the library calls: either an
ordinary (rational) value or IEEE NaN. -/
inductive PyFloat where
  | val : ℚ → PyFloat
  | nan : PyFloat
deriving DecidableEq

/-- Model of the two string shapes tir_display can take on lines 89 and 92 of
app.py: pct f stands for the two-decimal percent rendering of the float f
followed by a percent sign (for f = nan this is the string "nan%", since
Python formats nan without raising), and noCalc stands for the literal
"No calc.".  A percent rendering always ends in a percent sign, so it is
never the string "No calc."; the constructor distinction mirrors exactly
that string distinction. -/
inductive Display where
  | pct : PyFloat → Display
  | noCalc : Display
deriving DecidableEq

/-- The conditional indicator colors of lines 101-102 of app.py. -/
inductive Color where
  | green : Color
  | red : Color
deriving DecidableEq

/-- Tail of the discounted-cash-flow sum: the terms of the npv sum for the
list vs, whose first element sits at period t. -/
def npvAux (rate : ℚ) : Nat → List ℚ → ℚ
  | _, [] => 0
  | t, v :: vs => v / (1 + rate) ^ t + npvAux rate (t + 1) vs

/-- numpy_financial net present value of a cash-flow list: the sum of
values[t] / (1 + rate)^t over all indices t, with the index-0 entry
undiscounted (exponent 0).  This is the library function called on
line 83 of app.py. -/
def net_present_value (rate : ℚ) (values : List ℚ) : ℚ :=
  npvAux rate 0 values

/-- Horner evaluation over ℝ of the polynomial whose coefficient list (lowest
degree first) is values: the polynomial handed to np.roots inside
numpy_financial.irr is exactly this one, because irr reverses values before
the call and np.roots expects highest degree first. -/
def polyEval : List ℚ → ℝ → ℝ
  | [], _ => 0
  | c :: cs, x => (c : ℝ) + x * polyEval cs x

/-- The roots kept by the mask (res.imag == 0) and (res.real > 0) inside
numpy_financial.irr: the positive real roots of the polynomial.  np.roots
returns no roots at all for the identically-zero coefficient list, hence
the first branch. -/
def posRealRoots (values : List ℚ) : Set ℝ :=
  if values.all (fun v => decide (v = 0)) then ∅
  else setOf (fun x : ℝ => 0 < x ∧ polyEval values x = 0)

/-- The candidate internal rates of return: rate = 1 / x - 1 for each masked
root x, as computed inside numpy_financial.irr. -/
def rateSet (values : List ℚ) : Set ℝ :=
  Set.image (fun x => 1 / x - 1) (posRealRoots values)

/-- The early-exit test of numpy_financial.irr: all entries strictly positive
when the head is strictly positive, otherwise all entries strictly negative.
irr is only ever called on the nonempty full vector of app.py line 88, so
the empty case is unreachable there. -/
def same_sign : List ℚ → Bool
  | [] => false
  | v :: vs =>
      if 0 < v then (v :: vs).all (fun a => decide (0 < a))
      else (v :: vs).all (fun a => decide (a < 0))

/-- Result relation of numpy_financial.irr on a nonempty 1-D input, under the
exact-arithmetic idealization of the floating-point root computation.  The
function returns nan (it does not raise) on the same-sign early exit and when
the mask keeps no root; otherwise it returns the masked rate of smallest
absolute value (which one is returned on a tie of absolute values is an
argmin artifact of the eigenvalue ordering, left nondeterministic here). -/
def IrrSpec (values : List ℚ) (y : PyFloat) : Prop :=
  (same_sign values = true ∧ y = PyFloat.nan) ∨
  (same_sign values = false ∧ rateSet values = ∅ ∧ y = PyFloat.nan) ∨
  (same_sign values = false ∧ ∃ r ∈ rateSet values,
    (∀ s ∈ rateSet values, |r| ≤ |s|) ∧ ∃ q : ℚ, (q : ℝ) = r ∧ y = PyFloat.val q)

/-- Multiplication by 100 on line 88 of app.py: nan times 100 is nan in IEEE
arithmetic. -/
def mul100 : PyFloat → PyFloat
  | PyFloat.val q => PyFloat.val (q * 100)
  | PyFloat.nan => PyFloat.nan

/-- Lines 87-92 of app.py as a function of the outcome of the npf.irr call:
on a normal return f, tir is f scaled by 100 and tir_display its percent
rendering (Python f-strings format nan without raising, so a nan return
lands here too, displayed as "nan%"); on any raised exception, tir is None
and tir_display is "No calc.". -/
def tirBlock : Except Unit PyFloat → Option PyFloat × Display
  | Except.ok f => (some (mul100 f), Display.pct (mul100 f))
  | Except.error _ => (none, Display.noCalc)

/-- Line 77 of app.py: elementwise net flow, Ingresos minus Egresos. -/
def flujoNeto (ingresos egresos : List ℚ) : List ℚ :=
  List.zipWith (fun i e => i - e) ingresos egresos

/-- Line 80 of app.py: the full cash-flow vector, the negated initial
investment followed by the per-period net flows. -/
def flujos_completo (inversion_inicial : ℚ) (netFlows : List ℚ) : List ℚ :=
  -inversion_inicial :: netFlows

/-- Line 83 of app.py: the NPV of the full vector at the discount rate given
in percent and divided by 100. -/
def van (inversion_inicial tasa_descuento : ℚ) (netFlows : List ℚ) : ℚ :=
  net_present_value (tasa_descuento / 100) (flujos_completo inversion_inicial netFlows)

/-- The four quantities the calculation section of app.py produces. -/
structure EvalResult where
  flujos : List ℚ
  vanVal : ℚ
  tir : Option PyFloat
  tir_display : Display
deriving DecidableEq

/-- Lines 77-92 of app.py as a function of the inputs and of the outcome of
the npf.irr call (the only step whose value the straight-line code does not
determine). -/
def pipeline (inversion_inicial tasa_descuento : ℚ) (netFlows : List ℚ)
    (irrOutcome : Except Unit PyFloat) : EvalResult :=
  { flujos := flujos_completo inversion_inicial netFlows
    vanVal := van inversion_inicial tasa_descuento netFlows
    tir := (tirBlock irrOutcome).1
    tir_display := (tirBlock irrOutcome).2 }

/-- One full evaluation of the calculation section: npf.irr returns normally
on the (always nonempty) full vector with some value permitted by IrrSpec,
and the rest of the section is the deterministic pipeline. -/
def Evaluates (inversion_inicial tasa_descuento : ℚ) (netFlows : List ℚ)
    (res : EvalResult) : Prop :=
  ∃ y : PyFloat, IrrSpec (flujos_completo inversion_inicial netFlows) y ∧
    res = pipeline inversion_inicial tasa_descuento netFlows (Except.ok y)

/-- Line 101 of app.py: green when van is strictly positive, red otherwise. -/
def color_van (vanVal : ℚ) : Color :=
  if 0 < vanVal then Color.green else Color.red

/-- Line 102 of app.py: green when tir is not None and tir is strictly greater
than tasa_descuento, red otherwise.  A comparison against NaN is False in
Python, so a present NaN is red. -/
def color_tir (tir : Option PyFloat) (tasa_descuento : ℚ) : Color :=
  match tir with
  | some (PyFloat.val q) => if tasa_descuento < q then Color.green else Color.red
  | some PyFloat.nan => Color.red
  | none => Color.red

/-! Helper lemmas shared by the claim theorems. -/

/-- The npv tail sum written as a Finset sum over positions. -/
theorem npvAux_eq_sum (rate : ℚ) (vs : List ℚ) :
    ∀ t : Nat, npvAux rate t vs =
      ∑ i in Finset.range vs.length, vs.getD i 0 / (1 + rate) ^ (t + i) := by
  induction vs with
  | nil => intro t; simp [npvAux]
  | cons v vs ih =>
    intro t
    rw [npvAux, ih (t + 1), List.length_cons, Finset.sum_range_succ']
    simp only [List.getD_cons_succ, List.getD_cons_zero, Nat.add_zero]
    rw [add_comm]
    congr 1
    refine Finset.sum_congr rfl (fun i _ => ?_)
    have h : t + (i + 1) = t + 1 + i := by omega
    rw [h]

/-- At rate zero every discount factor is one, so the tail sum is the plain
list sum. -/
theorem npvAux_zero_rate (vs : List ℚ) : ∀ t : Nat, npvAux 0 t vs = vs.sum := by
  induction vs with
  | nil => intro t; simp [npvAux]
  | cons v vs ih =>
    intro t
    rw [npvAux, ih (t + 1), List.sum_cons]
    norm_num

/-- The tail sum is antitone in the rate when every entry is non-negative. -/
theorem npvAux_anti (r1 r2 : ℚ) (h1 : -1 < r1) (h12 : r1 ≤ r2) (vs : List ℚ) :
    ∀ t : Nat, (∀ a ∈ vs, 0 ≤ a) → npvAux r2 t vs ≤ npvAux r1 t vs := by
  induction vs with
  | nil => intro t _; simp [npvAux]
  | cons v vs ih =>
    intro t hvs
    have hv : 0 ≤ v := hvs v (by simp)
    have hrest : ∀ a ∈ vs, 0 ≤ a := fun a ha => hvs a (by simp [ha])
    have h01 : (0 : ℚ) < 1 + r1 := by linarith
    have hp1 : (0 : ℚ) < (1 + r1) ^ t := pow_pos h01 t
    have hple : (1 + r1) ^ t ≤ (1 + r2) ^ t :=
      pow_le_pow_left₀ h01.le (by linarith) t
    have hterm : v / (1 + r2) ^ t ≤ v / (1 + r1) ^ t :=
      div_le_div_of_nonneg_left hv hp1 hple
    rw [npvAux, npvAux]
    exact add_le_add hterm (ih (t + 1) hrest)

/-- When the same-sign early exit fires, IrrSpec forces the nan result. -/
theorem irrSpec_of_same_sign {values : List ℚ} {y : PyFloat}
    (hss : same_sign values = true) (h : IrrSpec values y) : y = PyFloat.nan := by
  rcases h with ⟨_, hy⟩ | ⟨hf, _, _⟩ | ⟨hf, _⟩
  · exact hy
  · rw [hss] at hf; exact absurd hf (by simp)
  · rw [hss] at hf; exact absurd hf (by simp)

/-- On a single-element vector numpy_financial.irr yields nan: for a nonzero
entry the same-sign early exit fires, and for the zero entry the root set is
empty. -/
theorem irrSpec_singleton (io : ℚ) (y : PyFloat)
    (h : IrrSpec [-io] y) : y = PyFloat.nan := by
  rcases h with ⟨_, hy⟩ | ⟨_, _, hy⟩ | ⟨hss, r, hrmem, _, _⟩
  · exact hy
  · exact hy
  · exfalso
    by_cases hio : io = 0
    · subst hio
      have hempty : posRealRoots [-(0 : ℚ)] = ∅ := by
        unfold posRealRoots
        rw [if_pos (by decide)]
      rw [rateSet, hempty, Set.image_empty] at hrmem
      exact Set.not_mem_empty r hrmem
    · have h1 : same_sign [-io] = true := by
        rcases lt_or_gt_of_ne hio with hlt | hgt
        · have hpos : 0 < -io := by linarith
          simp [same_sign, if_pos hpos, hpos]
        · have hnpos : ¬ 0 < -io := by linarith
          have hneg : -io < 0 := by linarith
          simp [same_sign, if_neg hnpos, hneg]
      rw [hss] at h1
      exact absurd h1 (by simp)

/-- The positive real roots of the two-point vector of Scenario B. -/
theorem posRealRoots_scenB :
    posRealRoots [-1000, 500] =
      setOf (fun x : ℝ => 0 < x ∧ polyEval [-1000, 500] x = 0) := by
  unfold posRealRoots
  rw [if_neg (by decide)]

/-- The Scenario B polynomial in closed form. -/
theorem polyEval_scenB (x : ℝ) : polyEval [-1000, 500] x = 500 * x - 1000 := by
  simp [polyEval]
  ring

/-! Claim theorems. -/

/-- C1 (code bug at the failing input): on the all-negative full vector built
from inversion_inicial = 1000 and the single net flow -500 there is no sign
change, so npf.irr returns nan without raising; the except branch of lines
90-92 does not fire, tir is the present value nan (not None) and tir_display
is the percent rendering "nan%", not the "No calc." absence marker the spec
prescribes for this case.  Evaluation nevertheless completes normally. -/
theorem irr_nan_not_absent (res : EvalResult)
    (h : Evaluates 1000 12 [-500] res) :
    res.tir = some PyFloat.nan ∧ res.tir_display = Display.pct PyFloat.nan ∧
      res.tir_display ≠ Display.noCalc := by
  obtain ⟨y, hy, rfl⟩ := h
  have hss : same_sign (flujos_completo 1000 [-500]) = true := by decide
  have hnan := irrSpec_of_same_sign hss hy
  subst hnan
  exact ⟨rfl, rfl, by simp [pipeline, tirBlock]⟩

/-- Witness for irr_nan_not_absent at the concrete run with the nan return. -/
theorem irr_nan_not_absent_witness :
    (pipeline 1000 12 [-500] (Except.ok PyFloat.nan)).tir = some PyFloat.nan ∧
    (pipeline 1000 12 [-500] (Except.ok PyFloat.nan)).tir_display =
      Display.pct PyFloat.nan ∧
    (pipeline 1000 12 [-500] (Except.ok PyFloat.nan)).tir_display ≠
      Display.noCalc :=
  irr_nan_not_absent _ ⟨PyFloat.nan, Or.inl ⟨by decide, rfl⟩, rfl⟩

/-- C2: for every rate other than -1, net_present_value is the standard
discounted-cash-flow sum over the vector, with the index-0 entry divided by
the zeroth power (hence undiscounted) and each later entry discounted by its
period index. -/
theorem npv_is_dcf_sum (rate : ℚ) (values : List ℚ) (h : rate ≠ -1) :
    net_present_value rate values =
      ∑ t in Finset.range values.length, values.getD t 0 / (1 + rate) ^ t := by
  rw [net_present_value, npvAux_eq_sum]
  exact Finset.sum_congr rfl (fun t _ => by rw [Nat.zero_add])

/-- Witness for npv_is_dcf_sum at rate 1 on a two-entry vector. -/
theorem npv_is_dcf_sum_witness :
    (1 : ℚ) ≠ -1 ∧
      net_present_value 1 [4, 6] =
        ∑ t in Finset.range ([(4 : ℚ), 6].length),
          [(4 : ℚ), 6].getD t 0 / (1 + 1) ^ t :=
  ⟨by decide, npv_is_dcf_sum 1 [4, 6] (by decide)⟩

/-- C3: the full vector is the negated outlay consed onto the net flows; its
length is one more than the number of net flows, and every net flow keeps its
position, shifted by one.  The builder is a total pure function. -/
theorem buildFullVector_correct (io : ℚ) (nf : List ℚ) :
    flujos_completo io nf = -io :: nf ∧
    (flujos_completo io nf).length = nf.length + 1 ∧
    (flujos_completo io nf).getD 0 0 = -io ∧
    ∀ t : Nat, (flujos_completo io nf).getD (t + 1) 0 = nf.getD t 0 := by
  refine ⟨rfl, by simp [flujos_completo], rfl, fun t => rfl⟩

/-- C4 (code bug at the empty-netFlows input): with no net flows the full
vector is the singleton of the negated outlay and the NPV is the negated
outlay at every rate, but npf.irr returns nan on a singleton vector, so tir
is the present value nan rather than the absent None the spec prescribes. -/
theorem empty_netflows_irr_present (io rate : ℚ) (hr : rate ≠ -1)
    (res : EvalResult) (h : Evaluates io (rate * 100) [] res) :
    res.flujos = [-io] ∧ res.vanVal = -io ∧ res.tir = some PyFloat.nan ∧
      res.tir ≠ none ∧ res.tir_display = Display.pct PyFloat.nan := by
  obtain ⟨y, hy, rfl⟩ := h
  have hnan := irrSpec_singleton io y hy
  subst hnan
  refine ⟨rfl, ?_, rfl, by simp [pipeline, tirBlock], rfl⟩
  show van io (rate * 100) [] = -io
  simp [van, net_present_value, npvAux, flujos_completo]

/-- Witness for empty_netflows_irr_present with outlay 1000 and rate 12. -/
theorem empty_netflows_irr_present_witness :
    (12 : ℚ) ≠ -1 ∧
    (pipeline 1000 (12 * 100) [] (Except.ok PyFloat.nan)).flujos = [-1000] ∧
    (pipeline 1000 (12 * 100) [] (Except.ok PyFloat.nan)).vanVal = -1000 ∧
    (pipeline 1000 (12 * 100) [] (Except.ok PyFloat.nan)).tir =
      some PyFloat.nan ∧
    (pipeline 1000 (12 * 100) [] (Except.ok PyFloat.nan)).tir ≠ none ∧
    (pipeline 1000 (12 * 100) [] (Except.ok PyFloat.nan)).tir_display =
      Display.pct PyFloat.nan :=
  ⟨by decide, empty_netflows_irr_present 1000 12 (by decide) _
    ⟨PyFloat.nan, Or.inl ⟨by decide, rfl⟩, rfl⟩⟩

/-- C6: the NPV indicator is green exactly when van is strictly positive, and
the IRR indicator is green exactly when tir holds an ordinary (non-NaN,
non-None) value strictly greater than the discount rate in percent; an
absent tir is always red. -/
theorem acceptability_colors (v : ℚ) (tir : Option PyFloat) (tasa : ℚ) :
    (color_van v = Color.green ↔ 0 < v) ∧
    (color_tir tir tasa = Color.green ↔
      ∃ q : ℚ, tir = some (PyFloat.val q) ∧ tasa < q) ∧
    color_tir none tasa = Color.red := by
  refine ⟨?_, ?_, rfl⟩
  · unfold color_van
    split
    · simp_all
    · simp_all
  · constructor
    · intro h
      cases tir with
      | none => simp [color_tir] at h
      | some f =>
        cases f with
        | nan => simp [color_tir] at h
        | val q =>
          refine ⟨q, rfl, ?_⟩
          by_contra hneg
          rw [color_tir, if_neg hneg] at h
          exact absurd h (by simp)
    · rintro ⟨q, rfl, hq⟩
      rw [color_tir, if_pos hq]

/-- C7: at rate zero the net present value of any vector is its plain sum. -/
theorem npv_zero_rate_sum (values : List ℚ) :
    net_present_value 0 values = values.sum := by
  rw [net_present_value, npvAux_zero_rate]

/-- C8: on a vector with a negative head and non-negative later entries, the
net present value is antitone in the rate over rates above -1. -/
theorem npv_rate_antitone (v0 : ℚ) (rest : List ℚ) (r1 r2 : ℚ)
    (hv0 : v0 < 0) (hrest : ∀ a ∈ rest, 0 ≤ a)
    (h1 : -1 < r1) (h2 : -1 < r2) (h12 : r1 ≤ r2) :
    net_present_value r2 (v0 :: rest) ≤ net_present_value r1 (v0 :: rest) := by
  have htail := npvAux_anti r1 r2 h1 h12 rest 1 hrest
  rw [net_present_value, net_present_value, npvAux, npvAux]
  simp only [pow_zero, div_one]
  linarith

/-- Witness for npv_rate_antitone on the vector [-1000, 500] at rates 0 and
one tenth. -/
theorem npv_rate_antitone_witness :
    (-1000 : ℚ) < 0 ∧
      net_present_value (1 / 10) (-1000 :: [500]) ≤
        net_present_value 0 (-1000 :: [500]) :=
  ⟨by decide, npv_rate_antitone (-1000) [500] 0 (1 / 10) (by decide)
    (by decide) (by norm_num) (by norm_num) (by norm_num)⟩

/-- C9: across both outcomes of the protected block, tir_display is the
"No calc." marker exactly when tir is None; and on a normal nan return of
npf.irr, tir is nan scaled by 100 (still nan) and tir_display is its percent
rendering, not "No calc.". -/
theorem tir_display_iff_none :
    (∀ o : Except Unit PyFloat,
      ((tirBlock o).2 = Display.noCalc ↔ (tirBlock o).1 = none)) ∧
    tirBlock (Except.ok PyFloat.nan) =
      (some (mul100 PyFloat.nan), Display.pct PyFloat.nan) ∧
    mul100 PyFloat.nan = PyFloat.nan := by
  refine ⟨fun o => ?_, rfl, rfl⟩
  cases o with
  | ok f => simp [tirBlock]
  | error e => simp [tirBlock]

/-- C10: the full vector and the NPV are computed before and independently of
the IRR step; whatever the outcome of the npf.irr call, they are identical,
and the NPV is always produced as the net present value of the full vector
at the percent rate divided by 100. -/
theorem van_independent_of_irr (io tasa : ℚ) (nf : List ℚ)
    (o1 o2 : Except Unit PyFloat) :
    (pipeline io tasa nf o1).vanVal = (pipeline io tasa nf o2).vanVal ∧
    (pipeline io tasa nf o1).flujos = (pipeline io tasa nf o2).flujos ∧
    (pipeline io tasa nf o1).vanVal =
      net_present_value (tasa / 100) (flujos_completo io nf) :=
  ⟨rfl, rfl, rfl⟩

/-- C5: on the Scenario B vector built from outlay 1000 and the single net
flow 500, the irr polynomial has the single masked root 2, so npf.irr
returns the present value -1/2 (not nan), and the block of lines 87-92
yields a present tir of -50 percent, not the absent None. -/
theorem irr_two_point_present :
    IrrSpec [-1000, 500] (PyFloat.val (-(1 / 2))) ∧
    (∀ y : PyFloat, IrrSpec [-1000, 500] y → y = PyFloat.val (-(1 / 2))) ∧
    (tirBlock (Except.ok (PyFloat.val (-(1 / 2))))).1 =
      some (PyFloat.val (-50)) ∧
    (tirBlock (Except.ok (PyFloat.val (-(1 / 2))))).1 ≠ none := by
  have hmem : (-(1 / 2) : ℝ) ∈ rateSet [-1000, 500] := by
    rw [rateSet, posRealRoots_scenB]
    refine ⟨2, ⟨by norm_num, ?_⟩, by norm_num⟩
    rw [polyEval_scenB]
    norm_num
  have huniq : ∀ s ∈ rateSet [-1000, 500], s = (-(1 / 2) : ℝ) := by
    rintro s ⟨x, hx, rfl⟩
    rw [posRealRoots_scenB] at hx
    obtain ⟨hxpos, hxzero⟩ := hx
    rw [polyEval_scenB] at hxzero
    have hx2 : x = 2 := by linarith
    subst hx2
    norm_num
  have hspec : IrrSpec [-1000, 500] (PyFloat.val (-(1 / 2))) := by
    refine Or.inr (Or.inr ⟨by decide, -(1 / 2), hmem, ?_, -(1 / 2), ?_, rfl⟩)
    · intro s hs
      rw [huniq s hs]
    · push_cast
      ring
  refine ⟨hspec, ?_, by norm_num [tirBlock, mul100], by simp [tirBlock]⟩
  rintro y (⟨hss, _⟩ | ⟨_, hempty, _⟩ | ⟨_, r, hrmem, _, q, hq, hy⟩)
  · exact absurd hss (by decide)
  · rw [hempty] at hmem
    exact absurd hmem (Set.not_mem_empty _)
  · have hr : r = (-(1 / 2) : ℝ) := huniq r hrmem
    have hqcast : (q : ℝ) = ((-(1 / 2) : ℚ) : ℝ) := by
      rw [hq, hr]
      push_cast
      ring
    have hq2 : q = -(1 / 2) := by exact_mod_cast hqcast
    rw [hy, hq2]

/-- Witness for irr_two_point_present: its existence conjunct discharges the
hypothesis of its uniqueness conjunct at the value -1/2. -/
theorem irr_two_point_present_witness :
    IrrSpec [-1000, 500] (PyFloat.val (-(1 / 2))) ∧
      PyFloat.val (-(1 / 2)) = PyFloat.val (-(1 / 2)) :=
  ⟨irr_two_point_present.1,
    irr_two_point_present.2.1 (PyFloat.val (-(1 / 2))) irr_two_point_present.1⟩

end App
